import Mathlib

/-!
Verification development for the MazePlayGround repository.

Shallow embedding of the three algorithmic engines of the repository:

* `MazeConfig.py`  — configuration validation and direction-weight normalization;
* `MazeGenerator.py` — probabilistic maze generation (weighted shuffle,
  room-probability, region-constrained BFS expansion);
* `MazeGame.py` — player movement, collision rules, victory detection;
* `MazeDP.py` — value iteration / policy iteration over the grid MDP.

Python floats are modelled as exact rationals (`ℚ`); Python ints as `ℤ`;
2D grids (Python lists of lists / numpy arrays, always accessed through
bounds-guarded indices) as total functions `ℤ × ℤ → ℤ` together with explicit
height/width fields, mutation becoming functional update; the ambient random
source (`random.random()`) as an explicit oracle stream `ℕ → ℚ` with a
consumption counter threaded through the state; code that raises an exception
is modelled with `Option` (a `none` result marks the raise).
-/

namespace MazePG

/-- Cell type enumeration from `MazeConfig.py` (`class CellType(Enum)`). -/
inductive CellType where
  | UNVISITED
  | WALL
  | ROOM
  | VISITED
  | PLAYER
  | EXIT
deriving DecidableEq, Repr

/-- Integer code of each cell type, exactly the `Enum` values of the source
(`UNVISITED = -2, WALL = -1, ROOM = 0, VISITED = 2, PLAYER = 3, EXIT = 4`). -/
def CellType.value : CellType → ℤ
  | .UNVISITED => -2
  | .WALL => -1
  | .ROOM => 0
  | .VISITED => 2
  | .PLAYER => 3
  | .EXIT => 4

/-- Direction enumeration from `MazeConfig.py` (`class Direction(Enum)`),
in declaration order UP, DOWN, LEFT, RIGHT. -/
inductive Direction where
  | UP
  | DOWN
  | LEFT
  | RIGHT
deriving DecidableEq, Repr

/-- Row/column delta of each direction, the `Enum` values of the source:
`UP = (-1, 0), DOWN = (1, 0), LEFT = (0, -1), RIGHT = (0, 1)`. -/
def Direction.delta : Direction → ℤ × ℤ
  | .UP => (-1, 0)
  | .DOWN => (1, 0)
  | .LEFT => (0, -1)
  | .RIGHT => (0, 1)

/-- Iteration order `list(Direction)` used by the generator: the enum's
declaration order. -/
def Direction.all : List Direction := [.UP, .DOWN, .LEFT, .RIGHT]

/-- Direction-weight map with the four required keys RIGHT, DOWN, LEFT, UP
(`MazeConfig.direction_weights`); validation rejects maps missing one of
them, so the map is modelled as a record with exactly those fields. -/
structure DirectionWeights where
  RIGHT : ℚ
  DOWN : ℚ
  LEFT : ℚ
  UP : ℚ
deriving DecidableEq, Repr

/-- Lookup `direction_weights[d.name]`. -/
def DirectionWeights.get (w : DirectionWeights) : Direction → ℚ
  | .RIGHT => w.RIGHT
  | .DOWN => w.DOWN
  | .LEFT => w.LEFT
  | .UP => w.UP

/-- Sum of the map's values, `sum(self.direction_weights.values())`. -/
def DirectionWeights.total (w : DirectionWeights) : ℚ :=
  w.RIGHT + w.DOWN + w.LEFT + w.UP

/-- Configuration record `MazeConfig` (the fields consumed by the core
engines; cosmetic/export fields are not read by any embedded function). -/
structure MazeConfig where
  maze_width : ℤ := 20
  maze_height : ℤ := 20
  decay_factor : ℚ := 1/4
  base_prob_factor : ℚ := 1/4
  min_room_prob : ℚ := 1/20
  direction_weights : DirectionWeights := ⟨1/4, 1/4, 1/4, 1/4⟩
  room_clustering_factor : ℚ := 1/10
  corridor_width : ℤ := 1
  dead_end_removal_probability : ℚ := 0
deriving DecidableEq, Repr

/-- Embedding of `MazeConfig.validate_config`: `true` means the method
returns without raising `ValueError`.  The required-direction check and the
non-empty check always pass for the record representation; the large-size
check only logs a warning and never fails. -/
def validate_config (c : MazeConfig) : Bool :=
  3 ≤ c.maze_width && 3 ≤ c.maze_height &&
  (0 ≤ c.decay_factor && c.decay_factor ≤ 1) &&
  (0 ≤ c.base_prob_factor && c.base_prob_factor ≤ 1) &&
  (0 ≤ c.min_room_prob && c.min_room_prob ≤ 1) &&
  (0 ≤ c.direction_weights.RIGHT && c.direction_weights.RIGHT ≤ 1) &&
  (0 ≤ c.direction_weights.DOWN && c.direction_weights.DOWN ≤ 1) &&
  (0 ≤ c.direction_weights.LEFT && c.direction_weights.LEFT ≤ 1) &&
  (0 ≤ c.direction_weights.UP && c.direction_weights.UP ≤ 1) &&
  (0 ≤ c.room_clustering_factor && c.room_clustering_factor ≤ 1) &&
  1 ≤ c.corridor_width &&
  (0 ≤ c.dead_end_removal_probability && c.dead_end_removal_probability ≤ 1)

/-- Embedding of `MazeConfig.normalize_direction_weights`: if the total is 0
every weight becomes 0.25; else if the total differs from 1.0 by more than
1e-6 each weight is divided by the total; otherwise the map is unchanged. -/
def normalize_direction_weights (w : DirectionWeights) : DirectionWeights :=
  let total_weight := w.total
  if total_weight = 0 then ⟨1/4, 1/4, 1/4, 1/4⟩
  else if |total_weight - 1| > 1/1000000 then
    ⟨w.RIGHT / total_weight, w.DOWN / total_weight,
     w.LEFT / total_weight, w.UP / total_weight⟩
  else w

/-- Weight list `[self.config.direction_weights[d.name] for d in Direction]`
cached by `MazeGenerator.__init__` (enum order UP, DOWN, LEFT, RIGHT). -/
def generator_direction_weights (c : MazeConfig) : List ℚ :=
  Direction.all.map c.direction_weights.get

/-- Embedding of `MazeGenerator.weighted_shuffle`.  For each (item, weight)
pair the source computes the key `random.random() ** (1 / weight)`; the
division `1 / weight` raises `ZeroDivisionError` when the weight is 0, which
the embedding models by returning `none`.  The float power operator is kept
abstract as the parameter `powf`, and the draws of `random.random()` come
from the oracle `rand` in evaluation order.  The list is then sorted
ascending by key (Python's stable sort with `key=lambda x: x[0]`) and the
items are returned. -/
def weighted_shuffle {α : Type} (items : List α) (weights : List ℚ)
    (powf : ℚ → ℚ → ℚ) (rand : ℕ → ℚ) : Option (List α) := do
  let weighted_items ← (items.zip weights).enum.mapM
    (fun p =>
      if p.2.2 = 0 then none
      else some (powf (rand p.1) (1 / p.2.2), p.2.1))
  pure ((weighted_items.mergeSort (fun a b => a.1 ≤ b.1)).map (·.2))

/-- Embedding of `MazeGenerator.get_weighted_directions` (modulo the debug
print): shuffles `list(Direction)` with the cached weight list. -/
def get_weighted_directions (c : MazeConfig) (powf : ℚ → ℚ → ℚ)
    (rand : ℕ → ℚ) : Option (List Direction) :=
  weighted_shuffle Direction.all (generator_direction_weights c) powf rand

/-- Example configuration with a zero weight that is accepted at
construction: weights RIGHT = 0.5, DOWN = 0.5, LEFT = 0, UP = 0 sum to 1.0
so normalization leaves them untouched. -/
def cfg_zero_weight : MazeConfig :=
  { direction_weights := ⟨1/2, 1/2, 0, 0⟩ }

/-! Maze generation (`MazeGenerator.py`).  The grid `self.maze` is a list of
lists of cell codes, every access bounds-guarded; it is modelled as a total
function `ℤ × ℤ → ℤ`, in-place assignment becoming `Function.update`. -/

/-- Grid of integer cell codes indexed by (row, column). -/
def Maze : Type := ℤ × ℤ → ℤ

/-- Embedding of `MazeGenerator.in_bounds`:
`0 <= x < maze_height and 0 <= y < maze_width`. -/
def in_bounds (c : MazeConfig) (x y : ℤ) : Bool :=
  0 ≤ x && x < c.maze_height && 0 ≤ y && y < c.maze_width

/-- Embedding of `MazeGenerator.count_adjacent_rooms`: the counter starts at
-1 (exactly as in the source, `count = -1`) and is incremented once for each
4-adjacent in-bounds ROOM cell. -/
def count_adjacent_rooms (c : MazeConfig) (m : Maze) (x y : ℤ) : ℤ :=
  Direction.all.foldl
    (fun count d =>
      if in_bounds c (x + d.delta.1) (y + d.delta.2) ∧
          m (x + d.delta.1, y + d.delta.2) = CellType.ROOM.value
      then count + 1 else count)
    (-1)

/-- Count of ROOM cells 4-adjacent to a cell, written from the spec's words
`decay = decay_factor * (count of ROOM cells 4-adjacent to P)` for the
refinement comparison of claim C1: same traversal as
`count_adjacent_rooms`, but the count starts at 0. -/
def count_adjacent_rooms_spec (c : MazeConfig) (m : Maze) (x y : ℤ) : ℤ :=
  Direction.all.foldl
    (fun count d =>
      if in_bounds c (x + d.delta.1) (y + d.delta.2) ∧
          m (x + d.delta.1, y + d.delta.2) = CellType.ROOM.value
      then count + 1 else count)
    0

/-- Embedding of `MazeGenerator.get_room_neighbors`: 4-adjacent in-bounds
ROOM cells, in the source's delta order up, down, left, right. -/
def get_room_neighbors (c : MazeConfig) (m : Maze) (x y : ℤ) :
    List (ℤ × ℤ) :=
  ([((-1 : ℤ), (0 : ℤ)), (1, 0), (0, -1), (0, 1)]).filterMap
    (fun dd =>
      if in_bounds c (x + dd.1) (y + dd.2) ∧
          m (x + dd.1, y + dd.2) = CellType.ROOM.value
      then some (x + dd.1, y + dd.2) else none)

/-- Embedding of `MazeGenerator.mark_region`: BFS over the fixed set
`neighbors`, threading the queue and the `seen` set (modelled as a
duplicate-free list).  The loop pops the queue front and enqueues unseen
4-adjacent members of `neighbors`.  The source's `while queue_bfs` loop is
given explicit fuel; each enqueued cell enters `seen` at enqueue time, so
fuel exceeding the size of `neighbors` suffices for full execution. -/
def mark_region (neighbors : List (ℤ × ℤ)) :
    ℕ → List (ℤ × ℤ) → List (ℤ × ℤ) → List (ℤ × ℤ)
  | 0, _, seen => seen
  | _ + 1, [], seen => seen
  | fuel + 1, cxy :: rest, seen =>
    let r := ([((-1 : ℤ), (0 : ℤ)), (1, 0), (0, -1), (0, 1)]).foldl
      (fun (acc : List (ℤ × ℤ) × List (ℤ × ℤ)) dd =>
        let t := (cxy.1 + dd.1, cxy.2 + dd.2)
        if t ∈ neighbors ∧ t ∉ acc.2
        then (acc.1 ++ [t], acc.2 ++ [t]) else acc)
      (rest, seen)
    mark_region neighbors fuel r.1 r.2

/-- Embedding of `MazeGenerator.count_room_regions_around`: count the
4-connected regions among the ROOM neighbors of a cell, marking each region
with `mark_region` (accumulator pairs the `seen` list with the region
count). -/
def count_room_regions_around (c : MazeConfig) (m : Maze) (x y : ℤ) : ℕ :=
  let neighbors := get_room_neighbors c m x y
  (neighbors.foldl
    (fun (acc : List (ℤ × ℤ) × ℕ) pos =>
      if pos ∈ acc.1 then acc
      else (mark_region neighbors (neighbors.length + 1) [pos]
              (acc.1 ++ [pos]),
            acc.2 + 1))
    ([], 0)).2

/-- Embedding of `MazeGenerator.calculate_room_probability`. -/
def calculate_room_probability (c : MazeConfig) (m : Maze) (x y : ℤ)
    (neighbor_index total_neighbors : ℕ) : ℚ :=
  let base_prob : ℚ :=
    if 0 < total_neighbors
    then ((neighbor_index : ℚ) + 1) / (total_neighbors : ℚ)
    else c.base_prob_factor
  let decay : ℚ := c.decay_factor * (count_adjacent_rooms c m x y : ℚ)
  max c.min_room_prob (base_prob - decay)

/-- Room probability written from the spec's words (claim C1), for the
refinement comparison: identical to `calculate_room_probability` except
that the decay multiplies the plain count of 4-adjacent ROOM cells. -/
def spec_room_probability (c : MazeConfig) (m : Maze) (x y : ℤ)
    (neighbor_index total_neighbors : ℕ) : ℚ :=
  let base_prob : ℚ :=
    if 0 < total_neighbors
    then ((neighbor_index : ℚ) + 1) / (total_neighbors : ℚ)
    else c.base_prob_factor
  let decay : ℚ := c.decay_factor * (count_adjacent_rooms_spec c m x y : ℚ)
  max c.min_room_prob (base_prob - decay)

/-- Embedding of `MazeGenerator.should_create_room`: the fresh
`random.random()` draw is `rand k`, the next value of the oracle stream. -/
def should_create_room (c : MazeConfig) (rand : ℕ → ℚ) (k : ℕ) (m : Maze)
    (x y : ℤ) (room_prob : ℚ) : Bool :=
  let rand_val := rand k
  let region_count := count_room_regions_around c m x y
  decide (region_count ≤ 1) && decide (rand_val < room_prob)

/-- Generation state: the grid, the FIFO work queue, and the consumption
counters of the two oracle streams (`k` for `random.random()` draws, `s` for
calls to `get_weighted_directions`). -/
structure GenState where
  maze : Maze
  queue : List (ℤ × ℤ)
  k : ℕ
  s : ℕ

/-- Embedding of `MazeGenerator.process_neighbor`: decide ROOM vs WALL for
one candidate neighbor; a created room is appended to the work queue. -/
def process_neighbor (c : MazeConfig) (rand : ℕ → ℚ) (p : ℤ × ℤ)
    (i N : ℕ) (st : GenState) : GenState :=
  let room_prob := calculate_room_probability c st.maze p.1 p.2 i N
  if should_create_room c rand st.k st.maze p.1 p.2 room_prob then
    { st with maze := Function.update st.maze p CellType.ROOM.value,
              queue := st.queue ++ [p], k := st.k + 1 }
  else
    { st with maze := Function.update st.maze p CellType.WALL.value,
              k := st.k + 1 }

/-- Embedding of `MazeGenerator.get_unvisited_neighbors`, parametrized by
the direction order `ordered` produced by `get_weighted_directions` (the
weighted shuffle always returns a permutation of the four directions; the
order itself is delivered by an oracle in the generation embedding). -/
def get_unvisited_neighbors (c : MazeConfig) (m : Maze)
    (ordered : List Direction) (x y : ℤ) : List (ℤ × ℤ) :=
  ordered.filterMap
    (fun d =>
      if in_bounds c (x + d.delta.1) (y + d.delta.2) ∧
          m (x + d.delta.1, y + d.delta.2) = CellType.UNVISITED.value
      then some (x + d.delta.1, y + d.delta.2) else none)

/-- The `for i, (nx, ny) in enumerate(neighbors)` loop of
`MazeGenerator.generate`, processing each neighbor in order with its
enumeration index. -/
def process_neighbor_list (c : MazeConfig) (rand : ℕ → ℚ) (N : ℕ) :
    List (ℤ × ℤ) → ℕ → GenState → GenState
  | [], _, st => st
  | p :: rest, i, st =>
    process_neighbor_list c rand N rest (i + 1)
      (process_neighbor c rand p i N st)

/-- One iteration of the generation loop body: dequeue already done by the
caller; fetch the weighted direction order from the oracle `dirs`, collect
the unvisited neighbors, and process them in order. -/
def process_cell (c : MazeConfig) (rand : ℕ → ℚ)
    (dirs : ℕ → List Direction) (p : ℤ × ℤ) (st : GenState) : GenState :=
  let ordered := dirs st.s
  let st1 := { st with s := st.s + 1 }
  let neighbors := get_unvisited_neighbors c st1.maze ordered p.1 p.2
  process_neighbor_list c rand neighbors.length neighbors 0 st1

/-- The `while queue` loop of `MazeGenerator.generate`, with explicit
fuel. -/
def generate_loop (c : MazeConfig) (rand : ℕ → ℚ)
    (dirs : ℕ → List Direction) : ℕ → GenState → GenState
  | 0, st => st
  | fuel + 1, st =>
    match st.queue with
    | [] => st
    | p :: rest =>
      generate_loop c rand dirs fuel
        (process_cell c rand dirs p { st with queue := rest })

/-- Embedding of `MazeGenerator.finalize_maze`: every in-bounds cell still
UNVISITED becomes WALL. -/
def finalize_maze (c : MazeConfig) (m : Maze) : Maze :=
  fun p =>
    if in_bounds c p.1 p.2 ∧ m p = CellType.UNVISITED.value
    then CellType.WALL.value else m p

/-- Embedding of `MazeGenerator.generate` with explicit start cell: the
grid starts all UNVISITED (`__init__`), the start cell becomes ROOM and
seeds the queue, the loop runs, and the grid is finalized. -/
def generate (c : MazeConfig) (rand : ℕ → ℚ) (dirs : ℕ → List Direction)
    (start : ℤ × ℤ) (fuel : ℕ) : Maze :=
  let st0 : GenState :=
    { maze := Function.update (fun _ => CellType.UNVISITED.value) start
        CellType.ROOM.value,
      queue := [start], k := 0, s := 0 }
  finalize_maze c (generate_loop c rand dirs fuel st0).maze

/-- Cells one direction step apart (4-adjacency). -/
def adjacent (p q : ℤ × ℤ) : Prop :=
  ∃ d : Direction, q = (p.1 + d.delta.1, p.2 + d.delta.2)

/-- One step of a walk through ROOM cells: move to a 4-adjacent cell whose
code is ROOM. -/
def room_step (m : Maze) (p q : ℤ × ℤ) : Prop :=
  adjacent p q ∧ m q = CellType.ROOM.value

/-- Reachability through 4-adjacent ROOM cells. -/
def room_reachable (m : Maze) (s p : ℤ × ℤ) : Prop :=
  Relation.ReflTransGen (room_step m) s p

/-- Loop invariant of `MazeGenerator.generate`: the start cell is a ROOM,
every ROOM cell is reachable from the start through ROOM cells, and every
queued cell is a ROOM. -/
def gen_inv (start : ℤ × ℤ) (st : GenState) : Prop :=
  st.maze start = CellType.ROOM.value ∧
  (∀ p, st.maze p = CellType.ROOM.value → room_reachable st.maze start p) ∧
  (∀ p ∈ st.queue, st.maze p = CellType.ROOM.value)

/-- Concrete grid for the C1 counterexample: ROOM at (0, 0), everything
else UNVISITED. -/
def c1_maze : Maze :=
  fun p => if p = ((0 : ℤ), (0 : ℤ)) then CellType.ROOM.value
           else CellType.UNVISITED.value

/-! Maze game engine (`MazeGame.py`).  The session state bundles the loaded
grid (with its dimensions, `len(maze)` and `len(maze[0])`), the optional
player and exit coordinates, the game flags, and the tracked statistics
(wall-clock timestamps are not modelled). -/

/-- Game session state of the `MazeGame` class. -/
structure GameState where
  height : ℤ
  width : ℤ
  maze : Maze
  player_x : Option ℤ := none
  player_y : Option ℤ := none
  exit_x : Option ℤ := none
  exit_y : Option ℤ := none
  is_playing : Bool := false
  game_won : Bool := false
  game_over : Bool := false
  moves_count : ℕ := 0
  player_path : List (ℤ × ℤ) := []

/-- Embedding of `MazeGame.in_bounds` against `maze_dimensions`. -/
def game_in_bounds (g : GameState) (x y : ℤ) : Bool :=
  0 ≤ x && x < g.height && 0 ≤ y && y < g.width

/-- Python comparison of a raw integer cell code with a plain `Enum` member
(`cell_value != CellType.WALL` in `MazeGame.is_walkable`).  A plain `Enum`
member never compares equal to an `int`, and game grids hold the integer
codes (the generator and the game both store `CellType.X.value`), so this
equality test is always False — which is what this function returns, for
every input. -/
def py_int_enum_eq (_v : ℤ) (_ct : CellType) : Bool := false

/-- Embedding of `MazeGame.is_walkable`: bounds check, then the source's
`cell_value != CellType.WALL` comparison of an integer against the enum
member (see `py_int_enum_eq`). -/
def is_walkable (g : GameState) (x y : ℤ) : Bool :=
  if ¬ game_in_bounds g x y then false
  else ¬ py_int_enum_eq (g.maze (x, y)) CellType.WALL

/-- Embedding of `MazeGame.is_valid_move`.  `DIRECTION_MAPPING` assigns the
same unit deltas as `Direction.delta`, and every `Direction` value is in
the mapping.  With no placed player the source would raise `TypeError` on
`None + int` (the method has no try/except); that branch is modelled as
`False` and is never exercised by the theorems below. -/
def is_valid_move (g : GameState) (d : Direction) : Bool :=
  if ¬ g.is_playing then false
  else
    match g.player_x, g.player_y with
    | some px, some py =>
      let new_x := px + d.delta.1
      let new_y := py + d.delta.2
      game_in_bounds g new_x new_y && is_walkable g new_x new_y
    | _, _ => false

/-- Embedding of `MazeGame._handle_victory` (end-time stamping aside): the
old player cell `(px, py)` becomes VISITED, the exit cell becomes PLAYER,
the player moves there, the win/over flags are set and the path is
appended. -/
def handle_victory (g : GameState) (px py new_x new_y : ℤ) : GameState :=
  { g with
    maze := Function.update
      (Function.update g.maze (px, py) CellType.VISITED.value)
      (new_x, new_y) CellType.PLAYER.value,
    player_x := some new_x, player_y := some new_y,
    game_won := true, game_over := true,
    player_path := g.player_path ++ [(new_x, new_y)] }

/-- Embedding of `MazeGame._execute_move`: the old player cell becomes
VISITED, the target becomes PLAYER, the player moves and the path is
appended. -/
def execute_move (g : GameState) (px py new_x new_y : ℤ) : GameState :=
  { g with
    maze := Function.update
      (Function.update g.maze (px, py) CellType.VISITED.value)
      (new_x, new_y) CellType.PLAYER.value,
    player_x := some new_x, player_y := some new_y,
    player_path := g.player_path ++ [(new_x, new_y)] }

/-- Embedding of `MazeGame.move_player`, returning the Python boolean
result together with the post-state.  Every early return leaves the state
untouched.  With no placed player the `None + int` TypeError is caught by
the method's except clause and becomes a plain `False` return, before any
mutation. -/
def move_player (g : GameState) (d : Direction) : Bool × GameState :=
  if ¬ g.is_playing ∨ g.game_over then (false, g)
  else
    match g.player_x, g.player_y with
    | some px, some py =>
      let new_x := px + d.delta.1
      let new_y := py + d.delta.2
      if ¬ game_in_bounds g new_x new_y then (false, g)
      else
        let target_cell := g.maze (new_x, new_y)
        if target_cell = CellType.WALL.value then (false, g)
        else
          let g1 := { g with moves_count := g.moves_count + 1 }
          if target_cell = CellType.EXIT.value
          then (true, handle_victory g1 px py new_x new_y)
          else (true, execute_move g1 px py new_x new_y)
    | _, _ => (false, g)

/-- Embedding of `MazeGame.get_move_suggestions`: the directions, in the
source's character order w, a, s, d (UP, LEFT, DOWN, RIGHT), whose move is
reported valid. -/
def get_move_suggestions (g : GameState) : List Direction :=
  ([Direction.UP, Direction.LEFT, Direction.DOWN, Direction.RIGHT]).filter
    (fun d => is_valid_move g d)

/-- Concrete 1-by-2 game for C5 and C6: player placed at (0, 0), WALL at
(0, 1). -/
def wall_game : GameState :=
  { height := 1, width := 2,
    maze := fun p => if p = ((0 : ℤ), (1 : ℤ)) then CellType.WALL.value
                     else CellType.PLAYER.value,
    player_x := some 0, player_y := some 0, is_playing := true }

/-- Concrete 1-by-2 game for the C4 witness: player placed at (0, 0), EXIT
at (0, 1). -/
def exit_game : GameState :=
  { height := 1, width := 2,
    maze := fun p => if p = ((0 : ℤ), (1 : ℤ)) then CellType.EXIT.value
                     else CellType.PLAYER.value,
    player_x := some 0, player_y := some 0, is_playing := true }

/-! MDP solver (`MazeDP.py`).  The numpy value function and policy arrays
are modelled as total functions on (row, col); every sweep of the source
writes each cell at most once, reading backups from the copied `old_values`
array, so a sweep is a pointwise function on value functions. -/

/-- Value function, `self.value_function`. -/
def Val : Type := ℤ × ℤ → ℚ

/-- Policy array, `self.policy` (an action index 0-3 per cell). -/
def Policy : Type := ℤ × ℤ → ℕ

/-- Solver state of the `MazeDP` class: the grid with its shape, the
discount factor and the reward grid. -/
structure MazeDP where
  maze : Maze
  rows : ℤ
  cols : ℤ
  gamma : ℚ
  rewards : ℤ × ℤ → ℚ

/-- Row or column index list `range(n)` of the sweep loops. -/
def int_range (n : ℤ) : List ℤ :=
  (List.range n.toNat).map (fun (k : ℕ) => (k : ℤ))

/-- All (row, col) grid positions in sweep order. -/
def grid_positions (dp : MazeDP) : List (ℤ × ℤ) :=
  (int_range dp.rows).flatMap
    (fun i => (int_range dp.cols).map (fun j => (i, j)))

/-- Embedding of `MazeDP._find_terminal_states`: every grid cell whose code
is EXIT, in sweep order. -/
def find_terminal_states (dp : MazeDP) : List (ℤ × ℤ) :=
  (grid_positions dp).filter (fun p => dp.maze p = CellType.EXIT.value)

/-- Embedding of `MazeDP._is_terminal`: membership in the precomputed
terminal-state list. -/
def is_terminal (dp : MazeDP) (row col : ℤ) : Bool :=
  decide ((row, col) ∈ find_terminal_states dp)

/-- Embedding of `MazeDP._setup_rewards`: -0.04 per step, 0 on WALL cells,
10 on EXIT cells. -/
def setup_rewards (m : Maze) : ℤ × ℤ → ℚ :=
  fun p =>
    if m p = CellType.WALL.value then 0
    else if m p = CellType.EXIT.value then 10
    else -(4/100)

/-- Embedding of `MazeDP._is_valid_state`: in bounds and not a WALL. -/
def is_valid_state (dp : MazeDP) (row col : ℤ) : Bool :=
  0 ≤ row && row < dp.rows && 0 ≤ col && col < dp.cols &&
    decide (dp.maze (row, col) ≠ CellType.WALL.value)

/-- Action list `self.actions` (0 = UP, 1 = RIGHT, 2 = DOWN, 3 = LEFT). -/
def actions : List ℕ := [0, 1, 2, 3]

/-- Action deltas `self.action_deltas`, indexed by action. -/
def action_deltas : List (ℤ × ℤ) := [(-1, 0), (0, 1), (1, 0), (0, -1)]

/-- Embedding of `MazeDP._get_next_state`: move by the action's delta, or
stay put when the target is out of bounds or a WALL. -/
def get_next_state (dp : MazeDP) (row col : ℤ) (action : ℕ) : ℤ × ℤ :=
  let dd := action_deltas.getD action (0, 0)
  let new_row := row + dd.1
  let new_col := col + dd.2
  if ¬ is_valid_state dp new_row new_col then (row, col)
  else (new_row, new_col)

/-- One Bellman backup `rewards[i, j] + gamma * V[next(i, j, a)]`. -/
def action_value (dp : MazeDP) (V : Val) (row col : ℤ) (action : ℕ) : ℚ :=
  dp.rewards (row, col) + dp.gamma * V (get_next_state dp row col action)

/-- The `action_values` list built per cell by the sweeps, one backup per
action in order 0, 1, 2, 3. -/
def action_values (dp : MazeDP) (V : Val) (row col : ℤ) : List ℚ :=
  actions.map (action_value dp V row col)

/-- Python's `max` over a non-empty list (the sweeps always pass the four
action values). -/
def py_max_list (l : List ℚ) : ℚ :=
  match l with
  | [] => 0
  | x :: xs => xs.foldl max x

/-- The scanning loop of `np.argmax`: keep the current best index, replace
it only on a strictly greater value, so ties keep the earliest index. -/
def np_argmax_go (best_idx : ℕ) (best : ℚ) (idx : ℕ) : List ℚ → ℕ
  | [] => best_idx
  | v :: vs =>
    if best < v then np_argmax_go idx v (idx + 1) vs
    else np_argmax_go best_idx best (idx + 1) vs

/-- Embedding of `np.argmax` on a list: index of the first occurrence of
the maximum (0 on the empty list, never hit by the solver). -/
def np_argmax : List ℚ → ℕ
  | [] => 0
  | v :: vs => np_argmax_go 0 v 1 vs

/-- One sweep of `MazeDP.value_iteration`: every valid non-terminal cell
gets the maximum Bellman backup computed from the previous sweep's values
(`old_values`); every other cell keeps its value. -/
def vi_sweep (dp : MazeDP) (V : Val) : Val :=
  fun p =>
    if is_valid_state dp p.1 p.2 ∧ ¬ is_terminal dp p.1 p.2
    then py_max_list (action_values dp V p.1 p.2)
    else V p

/-- The `max_delta` tracked by a sweep: largest absolute change over the
updated (valid, non-terminal) cells, 0 when none changed. -/
def sweep_max_delta (dp : MazeDP) (Vold Vnew : Val) : ℚ :=
  (grid_positions dp).foldl
    (fun acc p =>
      if is_valid_state dp p.1 p.2 ∧ ¬ is_terminal dp p.1 p.2
      then max acc |Vnew p - Vold p| else acc)
    0

/-- The iteration loop of `MazeDP.value_iteration`: sweep, then stop early
once the sweep's max delta falls below theta, else continue up to the
iteration cap. -/
def vi_loop (dp : MazeDP) (theta : ℚ) : ℕ → Val → Val
  | 0, V => V
  | n + 1, V =>
    let V2 := vi_sweep dp V
    if sweep_max_delta dp V V2 < theta then V2 else vi_loop dp theta n V2

/-- Embedding of `MazeDP._extract_policy`: greedy extraction from the given
value function via `np.argmax` over the four action values; skipped cells
keep their previous policy entry. -/
def extract_policy (dp : MazeDP) (V : Val) (pol : Policy) : Policy :=
  fun p =>
    if is_valid_state dp p.1 p.2 ∧ ¬ is_terminal dp p.1 p.2
    then np_argmax (action_values dp V p.1 p.2)
    else pol p

/-- Embedding of `MazeDP.value_iteration` from a given starting value
function and policy (zeros at construction): run the loop, then extract
the greedy policy from the final value function. -/
def value_iteration (dp : MazeDP) (max_iterations : ℕ) (theta : ℚ)
    (V0 : Val) (pol0 : Policy) : Val × Policy :=
  let V := vi_loop dp theta max_iterations V0
  (V, extract_policy dp V pol0)

/-- One sweep of `MazeDP._policy_evaluation`: every valid non-terminal cell
gets the backup of its policy action from the previous sweep's values;
every other cell keeps its value. -/
def pe_sweep (dp : MazeDP) (pol : Policy) (V : Val) : Val :=
  fun p =>
    if is_valid_state dp p.1 p.2 ∧ ¬ is_terminal dp p.1 p.2
    then action_value dp V p.1 p.2 (pol p)
    else V p

/-- The evaluation loop of `MazeDP._policy_evaluation`, with the same
early-stop rule as value iteration. -/
def pe_loop (dp : MazeDP) (pol : Policy) (theta : ℚ) : ℕ → Val → Val
  | 0, V => V
  | n + 1, V =>
    let V2 := pe_sweep dp pol V
    if sweep_max_delta dp V V2 < theta then V2 else pe_loop dp pol theta n V2

/-- The initial-policy loop of `MazeDP.policy_iteration`: every valid
non-terminal cell is assigned `np.random.default_rng(42).choice(actions)`.
A numpy generator freshly constructed from a seed is a pure function of
that seed, so the call is modelled as an abstract function `rng_choice` of
the seed and the choice list — the same arguments at every cell and on
every run. -/
def init_random_policy (rng_choice : ℕ → List ℕ → ℕ) (dp : MazeDP)
    (pol : Policy) : Policy :=
  fun p =>
    if is_valid_state dp p.1 p.2 ∧ ¬ is_terminal dp p.1 p.2
    then rng_choice 42 actions
    else pol p

/-- Concrete 2-by-2 grid for the DP witnesses: EXIT at (1, 1), ROOM
elsewhere. -/
def dp_ex_maze : Maze :=
  fun p => if p = ((1 : ℤ), (1 : ℤ)) then CellType.EXIT.value
           else CellType.ROOM.value

/-- Concrete solver instance on `dp_ex_maze` with gamma 0.9 and the default
rewards. -/
def dp_ex : MazeDP :=
  { maze := dp_ex_maze, rows := 2, cols := 2, gamma := 9/10,
    rewards := setup_rewards dp_ex_maze }

end MazePG

namespace MazePG

/-- Claim C9: for every direction-weight map with all four directions present
and each weight in the interval from 0 to 1, if the weights sum to S with
S positive and S different from 1.0 then the constructed configuration's
weights sum to 1.0 within tolerance 1e-6, and if the weights are all exactly
zero then construction replaces them with four equal weights of 0.25. -/
theorem normalize_direction_weights_spec (w : DirectionWeights)
    (h1 : 0 ≤ w.RIGHT ∧ w.RIGHT ≤ 1) (h2 : 0 ≤ w.DOWN ∧ w.DOWN ≤ 1)
    (h3 : 0 ≤ w.LEFT ∧ w.LEFT ≤ 1) (h4 : 0 ≤ w.UP ∧ w.UP ≤ 1) :
    (0 < w.total → w.total ≠ 1 →
      |(normalize_direction_weights w).total - 1| ≤ 1/1000000) ∧
    (w = ⟨0, 0, 0, 0⟩ →
      normalize_direction_weights w = ⟨1/4, 1/4, 1/4, 1/4⟩) := by
  constructor
  · intro hpos hne
    unfold normalize_direction_weights
    have ht0 : w.total ≠ 0 := ne_of_gt hpos
    rw [if_neg ht0]
    by_cases hfar : |w.total - 1| > 1/1000000
    · rw [if_pos hfar]
      have htot : (⟨w.RIGHT / w.total, w.DOWN / w.total, w.LEFT / w.total,
          w.UP / w.total⟩ : DirectionWeights).total = 1 := by
        unfold DirectionWeights.total
        rw [div_add_div_same, div_add_div_same, div_add_div_same]
        exact div_self ht0
      rw [htot]
      norm_num
    · rw [if_neg hfar]
      linarith [not_lt.mp hfar]
  · intro hzero
    subst hzero
    unfold normalize_direction_weights DirectionWeights.total
    norm_num

/-- Witness for C9 at the concrete map with all weights 0.5 (sum 2 ≠ 1). -/
theorem normalize_direction_weights_spec_witness :
    |(normalize_direction_weights ⟨1/2, 1/2, 1/2, 1/2⟩).total - 1|
      ≤ 1/1000000 :=
  (normalize_direction_weights_spec ⟨1/2, 1/2, 1/2, 1/2⟩
    (by norm_num) (by norm_num) (by norm_num) (by norm_num)).1
    (by norm_num [DirectionWeights.total])
    (by norm_num [DirectionWeights.total])

/-- Claim C3 (failing input): the configuration with weights
RIGHT = 0.5, DOWN = 0.5, LEFT = 0, UP = 0 passes construction-time
validation, normalization leaves the zero weights in place, and then
`weighted_shuffle` on the directions with those weights raises
`ZeroDivisionError` (the embedded computation returns `none`) for every
random stream and every float power function — the zero-weight direction is
neither ranked last deterministically nor rejected as a configuration
error. -/
theorem weighted_shuffle_zero_weight_division_error :
    validate_config cfg_zero_weight = true ∧
    normalize_direction_weights cfg_zero_weight.direction_weights =
      cfg_zero_weight.direction_weights ∧
    ∀ (powf : ℚ → ℚ → ℚ) (rand : ℕ → ℚ),
      get_weighted_directions cfg_zero_weight powf rand = none := by
  refine ⟨?_, ?_, ?_⟩
  · norm_num [validate_config, cfg_zero_weight]
  · norm_num [normalize_direction_weights, DirectionWeights.total,
      cfg_zero_weight]
  · intro powf rand
    rfl

/-- Shifting the initial value of a counting fold adds a constant. -/
lemma foldl_count_shift {α : Type} (p : α → Prop) [DecidablePred p]
    (l : List α) (a : ℤ) :
    l.foldl (fun count d => if p d then count + 1 else count) a
      = a + l.foldl (fun count d => if p d then count + 1 else count) 0 := by
  induction l generalizing a with
  | nil => simp
  | cons d l ih =>
    simp only [List.foldl_cons]
    by_cases h : p d
    · rw [if_pos h, if_pos h, ih (a + 1), ih (0 + 1)]
      ring
    · rw [if_neg h, if_neg h, ih a]

/-- The source's adjacent-room counter equals the plain 4-adjacent ROOM
count minus one, since its accumulator starts at -1. -/
lemma count_adjacent_rooms_eq_spec_sub_one (c : MazeConfig) (m : Maze)
    (x y : ℤ) :
    count_adjacent_rooms c m x y = count_adjacent_rooms_spec c m x y - 1 := by
  unfold count_adjacent_rooms count_adjacent_rooms_spec
  rw [foldl_count_shift
    (fun d => in_bounds c (x + d.delta.1) (y + d.delta.2) ∧
      m (x + d.delta.1, y + d.delta.2) = CellType.ROOM.value)
    Direction.all (-1)]
  ring

/-- Claim C1 (counterexample): at the concrete input below the probability
computed by the code differs from the spec's formula.  With the default
configuration (decay_factor 0.25, min_room_prob 0.05), candidate P = (0, 1)
with exactly one 4-adjacent ROOM cell, index i = 0 among N = 1 unvisited
neighbors: the code yields max(0.05, 1 - 0.25 * 0) = 1 because its
adjacent-room counter starts at -1, while the claimed formula yields
max(0.05, 1 - 0.25 * 1) = 0.75. -/
theorem calculate_room_probability_claim_counterexample :
    calculate_room_probability {} c1_maze 0 1 0 1 = 1 ∧
    spec_room_probability {} c1_maze 0 1 0 1 = 3/4 ∧
    (1 : ℚ) ≠ 3/4 := by
  refine ⟨?_, ?_, by norm_num⟩
  · have hc : count_adjacent_rooms {} c1_maze 0 1 = 0 := by decide
    unfold calculate_room_probability
    rw [hc]
    norm_num
  · have hc : count_adjacent_rooms_spec {} c1_maze 0 1 = 1 := by decide
    unfold spec_room_probability
    rw [hc]
    norm_num

/-- Claim C1 (amended): for every candidate neighbor cell P at index i among
N unvisited neighbors, the room probability computed during generation
equals max(min_room_prob, base_prob - decay), where base_prob = (i+1)/N
(or base_prob_factor when N = 0) and decay = decay_factor multiplied by
(the number of ROOM cells 4-adjacent to P, minus one). -/
theorem calculate_room_probability_amended (c : MazeConfig) (m : Maze)
    (x y : ℤ) (i N : ℕ) :
    calculate_room_probability c m x y i N =
      max c.min_room_prob
        ((if 0 < N then ((i : ℚ) + 1) / (N : ℚ) else c.base_prob_factor)
          - c.decay_factor * ((count_adjacent_rooms_spec c m x y : ℚ) - 1)) := by
  unfold calculate_room_probability
  rw [count_adjacent_rooms_eq_spec_sub_one]
  push_cast
  ring_nf

/-- Moving by one unit delta never stays in place. -/
lemma delta_ne_zero_pos (px py : ℤ) (d : Direction) :
    (px, py) ≠ (px + d.delta.1, py + d.delta.2) := by
  cases d <;> simp [Direction.delta]

/-- Claim C4: with the player placed and the game active, moving onto the
cell holding the EXIT code returns true, sets the win and over flags, marks
the old player cell VISITED, marks the exit cell PLAYER, and appends the
exit's coordinates as the last entry of the player path; and once the game
is over, every move_player call returns false and leaves the state
untouched. -/
theorem move_player_victory (g : GameState) (d : Direction) (px py : ℤ)
    (hplay : g.is_playing = true) (hover : g.game_over = false)
    (hx : g.player_x = some px) (hy : g.player_y = some py)
    (hb : game_in_bounds g (px + d.delta.1) (py + d.delta.2) = true)
    (hexit : g.maze (px + d.delta.1, py + d.delta.2) = CellType.EXIT.value) :
    (move_player g d).1 = true ∧
    ((move_player g d).2.game_won = true ∧
     (move_player g d).2.game_over = true ∧
     (move_player g d).2.maze (px, py) = CellType.VISITED.value ∧
     (move_player g d).2.maze (px + d.delta.1, py + d.delta.2)
       = CellType.PLAYER.value ∧
     (move_player g d).2.player_path
       = g.player_path ++ [(px + d.delta.1, py + d.delta.2)]) ∧
    ∀ (g₂ : GameState) (d₂ : Direction),
      g₂.game_over = true → move_player g₂ d₂ = (false, g₂) := by
  have hne : ((px, py) : ℤ × ℤ) ≠ (px + d.delta.1, py + d.delta.2) :=
    delta_ne_zero_pos px py d
  have hmp : move_player g d =
      (true, handle_victory { g with moves_count := g.moves_count + 1 }
        px py (px + d.delta.1) (py + d.delta.2)) := by
    unfold move_player
    rw [if_neg (by simp [hplay, hover]), hx, hy]
    simp [hb, hexit, CellType.value]
  refine ⟨?_, ⟨?_, ?_, ?_, ?_, ?_⟩, ?_⟩
  · rw [hmp]
  · rw [hmp]
    rfl
  · rw [hmp]
    rfl
  · rw [hmp]
    show (handle_victory _ px py _ _).maze (px, py) = CellType.VISITED.value
    unfold handle_victory
    simp only [Function.update_noteq hne, Function.update_same]
  · rw [hmp]
    show (handle_victory _ px py _ _).maze (px + d.delta.1, py + d.delta.2)
      = CellType.PLAYER.value
    unfold handle_victory
    simp only [Function.update_same]
  · rw [hmp]
    rfl
  · intro g₂ d₂ h2
    simp [move_player, h2]

/-- Witness for C4 on the concrete 1-by-2 game with the exit one step to
the right of the player. -/
theorem move_player_victory_witness :
    (move_player exit_game .RIGHT).1 = true :=
  (move_player_victory exit_game .RIGHT 0 0 rfl rfl rfl rfl
    (by decide) (by decide)).1

/-- Claim C5 (code evaluated at the failing input): with the player at
(0, 0) next to a WALL at (0, 1), is_valid_move reports the move RIGHT as
valid although move_player refuses it — is_walkable's comparison
`cell_value != CellType.WALL` tests a raw integer against the enum member
and is therefore always true.  This falsifies the claimed equivalence of
the valid-moves query and the move outcome. -/
theorem is_valid_move_claim_counterexample :
    is_valid_move wall_game .RIGHT = true ∧
    (move_player wall_game .RIGHT).1 = false ∧
    get_move_suggestions wall_game = [.RIGHT] := by
  refine ⟨by decide, by decide, by decide⟩

/-- Claim C6: with the player placed, a move whose target cell is out of
bounds or holds the WALL code returns false and leaves the whole state —
grid, player coordinates, move counter and path — unchanged. -/
theorem move_player_blocked (g : GameState) (d : Direction) (px py : ℤ)
    (hx : g.player_x = some px) (hy : g.player_y = some py)
    (hblock : game_in_bounds g (px + d.delta.1) (py + d.delta.2) = false ∨
      g.maze (px + d.delta.1, py + d.delta.2) = CellType.WALL.value) :
    move_player g d = (false, g) := by
  unfold move_player
  by_cases hstop : ¬ g.is_playing ∨ g.game_over
  · rw [if_pos hstop]
  · rw [if_neg hstop, hx, hy]
    rcases hblock with hb | hw
    · simp [hb]
    · by_cases hb : game_in_bounds g (px + d.delta.1) (py + d.delta.2)
      · simp [hb, hw]
      · simp [hb]

/-- Witness for C6 on the concrete 1-by-2 game with a WALL one step to the
right of the player. -/
theorem move_player_blocked_witness :
    move_player wall_game .RIGHT = (false, wall_game) :=
  move_player_blocked wall_game .RIGHT 0 0 rfl rfl (Or.inr (by decide))

/-- Membership in the integer index range. -/
lemma mem_int_range (n i : ℤ) : i ∈ int_range n ↔ 0 ≤ i ∧ i < n := by
  simp only [int_range, List.mem_map, List.mem_range]
  constructor
  · rintro ⟨k, hk, rfl⟩
    constructor
    · exact Int.ofNat_nonneg k
    · omega
  · rintro ⟨h0, h1⟩
    refine ⟨i.toNat, by omega, by omega⟩

/-- A pair is a terminal state exactly when it is an in-grid EXIT cell. -/
lemma mem_find_terminal_states (dp : MazeDP) (i j : ℤ) :
    (i, j) ∈ find_terminal_states dp ↔
      (0 ≤ i ∧ i < dp.rows ∧ 0 ≤ j ∧ j < dp.cols ∧
        dp.maze (i, j) = CellType.EXIT.value) := by
  simp only [find_terminal_states, grid_positions, List.mem_filter,
    List.mem_flatMap, List.mem_map, mem_int_range, decide_eq_true_eq]
  constructor
  · rintro ⟨⟨i', hi', j', hj', h⟩, hex⟩
    obtain ⟨rfl, rfl⟩ := Prod.mk.injEq .. ▸ h
    exact ⟨hi'.1, hi'.2, hj'.1, hj'.2, hex⟩
  · rintro ⟨h1, h2, h3, h4, hex⟩
    exact ⟨⟨i, ⟨h1, h2⟩, j, ⟨h3, h4⟩, rfl⟩, hex⟩

/-- The sweeps' skip condition holds at every WALL cell and at every
in-grid EXIT cell. -/
lemma skip_condition_of_wall_or_exit (dp : MazeDP) (p : ℤ × ℤ)
    (hcell : dp.maze p = CellType.WALL.value ∨
      ((0 ≤ p.1 ∧ p.1 < dp.rows ∧ 0 ≤ p.2 ∧ p.2 < dp.cols) ∧
        dp.maze p = CellType.EXIT.value)) :
    ¬ (is_valid_state dp p.1 p.2 ∧ ¬ is_terminal dp p.1 p.2) := by
  rcases hcell with hw | ⟨hb, he⟩
  · intro h
    have := h.1
    simp only [is_valid_state, Bool.and_eq_true, decide_eq_true_eq] at this
    exact this.2 (by rw [show ((p.1, p.2) : ℤ × ℤ) = p from rfl]; exact hw)
  · intro h
    apply h.2
    simp only [is_terminal, decide_eq_true_eq]
    rw [show ((p.1, p.2) : ℤ × ℤ) = p from rfl] at *
    exact (mem_find_terminal_states dp p.1 p.2).mpr
      ⟨hb.1, hb.2.1, hb.2.2.1, hb.2.2.2, he⟩

/-- Claim C8: the value-function entry of a WALL cell or of a terminal
(EXIT) cell is never changed — not by a value-iteration sweep, not by the
whole value-iteration loop, not by a policy-evaluation sweep, and not by
the whole policy-evaluation loop. -/
theorem dp_terminal_wall_value_invariant (dp : MazeDP) (p : ℤ × ℤ)
    (hcell : dp.maze p = CellType.WALL.value ∨
      ((0 ≤ p.1 ∧ p.1 < dp.rows ∧ 0 ≤ p.2 ∧ p.2 < dp.cols) ∧
        dp.maze p = CellType.EXIT.value)) :
    (∀ V : Val, vi_sweep dp V p = V p) ∧
    (∀ (theta : ℚ) (n : ℕ) (V : Val), vi_loop dp theta n V p = V p) ∧
    (∀ (pol : Policy) (V : Val), pe_sweep dp pol V p = V p) ∧
    (∀ (pol : Policy) (theta : ℚ) (n : ℕ) (V : Val),
      pe_loop dp pol theta n V p = V p) := by
  have hskip := skip_condition_of_wall_or_exit dp p hcell
  have hvs : ∀ V : Val, vi_sweep dp V p = V p := by
    intro V
    unfold vi_sweep
    rw [if_neg hskip]
  have hps : ∀ (pol : Policy) (V : Val), pe_sweep dp pol V p = V p := by
    intro pol V
    unfold pe_sweep
    rw [if_neg hskip]
  refine ⟨hvs, ?_, hps, ?_⟩
  · intro theta n
    induction n with
    | zero => intro V; rfl
    | succ n ih =>
      intro V
      unfold vi_loop
      by_cases hlt : sweep_max_delta dp V (vi_sweep dp V) < theta
      · rw [if_pos hlt]
        exact hvs V
      · rw [if_neg hlt, ih (vi_sweep dp V)]
        exact hvs V
  · intro pol theta n
    induction n with
    | zero => intro V; rfl
    | succ n ih =>
      intro V
      unfold pe_loop
      by_cases hlt : sweep_max_delta dp V (pe_sweep dp pol V) < theta
      · rw [if_pos hlt]
        exact hps pol V
      · rw [if_neg hlt, ih (pe_sweep dp pol V)]
        exact hps pol V

/-- Witness for C8 at the in-grid EXIT cell (1, 1) of the concrete 2-by-2
solver instance. -/
theorem dp_terminal_wall_value_invariant_witness :
    vi_sweep dp_ex (fun _ => 0) (1, 1) = 0 :=
  (dp_terminal_wall_value_invariant dp_ex (1, 1)
    (Or.inr ⟨by decide, by decide⟩)).1 (fun _ => 0)

/-- Specification of `np.argmax` on a four-element list: the returned index
is below 4, its entry is a maximum of the list, and every earlier entry is
strictly smaller (first-maximum tie-breaking). -/
lemma np_argmax_spec4 (a0 a1 a2 a3 : ℚ) :
    np_argmax [a0, a1, a2, a3] < 4 ∧
    (∀ v ∈ [a0, a1, a2, a3],
      v ≤ [a0, a1, a2, a3].getD (np_argmax [a0, a1, a2, a3]) 0) ∧
    (∀ j < np_argmax [a0, a1, a2, a3],
      [a0, a1, a2, a3].getD j 0
        < [a0, a1, a2, a3].getD (np_argmax [a0, a1, a2, a3]) 0) := by
  simp only [np_argmax, np_argmax_go]
  split_ifs <;>
    (refine ⟨by norm_num, ?_, ?_⟩
     · intro v hv
       fin_cases hv <;> simp <;> linarith
     · intro j hj
       interval_cases j <;> simp <;> linarith)

/-- Claim C7: after value_iteration returns, at every valid non-terminal
cell the extracted policy's action attains the maximum of the four Bellman
backups computed from the final value function, and every smaller-indexed
action (in the fixed order UP, RIGHT, DOWN, LEFT = 0-3) is strictly worse,
so ties go to the first maximizing action. -/
theorem value_iteration_policy_greedy (dp : MazeDP) (max_iterations : ℕ)
    (theta : ℚ) (V0 : Val) (pol0 : Policy) (p : ℤ × ℤ)
    (hvalid : is_valid_state dp p.1 p.2 = true)
    (hterm : is_terminal dp p.1 p.2 = false) :
    (value_iteration dp max_iterations theta V0 pol0).2 p ∈ actions ∧
    (∀ a ∈ actions,
      action_value dp (value_iteration dp max_iterations theta V0 pol0).1
          p.1 p.2 a
        ≤ action_value dp (value_iteration dp max_iterations theta V0 pol0).1
          p.1 p.2 ((value_iteration dp max_iterations theta V0 pol0).2 p)) ∧
    (∀ a ∈ actions,
      a < (value_iteration dp max_iterations theta V0 pol0).2 p →
      action_value dp (value_iteration dp max_iterations theta V0 pol0).1
          p.1 p.2 a
        < action_value dp (value_iteration dp max_iterations theta V0 pol0).1
          p.1 p.2 ((value_iteration dp max_iterations theta V0 pol0).2 p)) := by
  have hcond : (is_valid_state dp p.1 p.2 ∧ ¬ is_terminal dp p.1 p.2) := by
    rw [hvalid, hterm]
    exact ⟨rfl, by simp⟩
  have hpol : (value_iteration dp max_iterations theta V0 pol0).2 p
      = np_argmax (action_values dp
          (vi_loop dp theta max_iterations V0) p.1 p.2) := by
    show extract_policy dp (vi_loop dp theta max_iterations V0) pol0 p = _
    unfold extract_policy
    rw [if_pos hcond]
  have hV : (value_iteration dp max_iterations theta V0 pol0).1
      = vi_loop dp theta max_iterations V0 := rfl
  set V := vi_loop dp theta max_iterations V0 with hVdef
  have hvals : action_values dp V p.1 p.2 =
      [action_value dp V p.1 p.2 0, action_value dp V p.1 p.2 1,
       action_value dp V p.1 p.2 2, action_value dp V p.1 p.2 3] := rfl
  have h4 := np_argmax_spec4 (action_value dp V p.1 p.2 0)
    (action_value dp V p.1 p.2 1) (action_value dp V p.1 p.2 2)
    (action_value dp V p.1 p.2 3)
  rw [← hvals] at h4
  have hget : ∀ a ∈ actions,
      (action_values dp V p.1 p.2).getD a 0 = action_value dp V p.1 p.2 a := by
    intro a ha
    fin_cases ha <;> rfl
  have hr : np_argmax (action_values dp V p.1 p.2) ∈ actions := by
    have := h4.1
    interval_cases h : np_argmax (action_values dp V p.1 p.2) <;> decide
  refine ⟨?_, ?_, ?_⟩
  · rw [hpol, hVdef]
    exact hr
  · intro a ha
    rw [hpol, hV, hVdef]
    rw [hget _ hr] at h4
    exact h4.2.1 (action_value dp V p.1 p.2 a)
      (by rw [hvals]; fin_cases ha <;> simp)
  · intro a ha hlt
    rw [hpol, hV, hVdef]
    rw [hpol, hVdef] at hlt
    have := h4.2.2 a hlt
    rw [hget _ hr, hget _ ha] at this
    exact this

/-- Witness for C7 at the valid non-terminal cell (0, 0) of the concrete
2-by-2 solver instance, with the zero starting value function and policy. -/
theorem value_iteration_policy_greedy_witness :
    (value_iteration dp_ex 0 (1/10000) (fun _ => 0) (fun _ => 0)).2 (0, 0)
      ∈ actions :=
  (value_iteration_policy_greedy dp_ex 0 (1/10000) (fun _ => 0) (fun _ => 0)
    (0, 0) (by decide) (by decide)).1

/-- Claim C10: the initial policy of policy_iteration is deterministic and
degenerate — because a fresh generator seeded with the constant 42 is built
for each cell, every valid non-terminal cell receives the identical action,
and two runs on the same grid (whatever policy array they start from)
assign the same initial action to each such cell. -/
theorem policy_iteration_init_degenerate (rng_choice : ℕ → List ℕ → ℕ)
    (dp : MazeDP) (pol1 pol2 : Policy) (p q : ℤ × ℤ)
    (hpv : is_valid_state dp p.1 p.2 = true)
    (hpt : is_terminal dp p.1 p.2 = false)
    (hqv : is_valid_state dp q.1 q.2 = true)
    (hqt : is_terminal dp q.1 q.2 = false) :
    init_random_policy rng_choice dp pol1 p
      = init_random_policy rng_choice dp pol1 q ∧
    init_random_policy rng_choice dp pol1 p
      = init_random_policy rng_choice dp pol2 p := by
  constructor <;> simp [init_random_policy, hpv, hpt, hqv, hqt]

/-- Witness for C10 at the two valid non-terminal cells (0, 0) and (0, 1)
of the concrete 2-by-2 solver instance. -/
theorem policy_iteration_init_degenerate_witness :
    init_random_policy (fun _ _ => 2) dp_ex (fun _ => 0) (0, 0)
      = init_random_policy (fun _ _ => 2) dp_ex (fun _ => 0) (0, 1) :=
  (policy_iteration_init_degenerate (fun _ _ => 2) dp_ex (fun _ => 0)
    (fun _ => 1) (0, 0) (0, 1) (by decide) (by decide) (by decide)
    (by decide)).1

/-- Monotonicity of ROOM-reachability: growing the ROOM set preserves every
walk. -/
lemma room_reachable_mono (m m' : Maze)
    (h : ∀ q, m q = CellType.ROOM.value → m' q = CellType.ROOM.value)
    (s p : ℤ × ℤ) (hr : room_reachable m s p) : room_reachable m' s p :=
  Relation.ReflTransGen.mono (fun _ b hab => ⟨hab.1, h b hab.2⟩) hr

/-- Grids with the same ROOM cells have the same ROOM-walks. -/
lemma room_reachable_congr (m m' : Maze)
    (h : ∀ q, m' q = CellType.ROOM.value ↔ m q = CellType.ROOM.value)
    (s p : ℤ × ℤ) :
    room_reachable m s p → room_reachable m' s p :=
  room_reachable_mono m m' (fun q hq => (h q).mpr hq) s p

/-- Overwriting an UNVISITED cell with WALL leaves the ROOM set unchanged. -/
lemma room_iff_update_wall (m : Maze) (p : ℤ × ℤ)
    (hp : m p = CellType.UNVISITED.value) (q : ℤ × ℤ) :
    Function.update m p CellType.WALL.value q = CellType.ROOM.value ↔
      m q = CellType.ROOM.value := by
  by_cases hq : q = p
  · subst hq
    rw [Function.update_same, hp]
    constructor
    · intro h; exact absurd h (by decide)
    · intro h; exact absurd h (by decide)
  · rw [Function.update_noteq hq]

/-- ROOM membership after overwriting a cell with ROOM. -/
lemma room_iff_update_room (m : Maze) (p q : ℤ × ℤ) :
    Function.update m p CellType.ROOM.value q = CellType.ROOM.value ↔
      (q = p ∨ m q = CellType.ROOM.value) := by
  by_cases hq : q = p
  · subst hq
    rw [Function.update_same]
    simp
  · rw [Function.update_noteq hq]
    simp [hq]

/-- Creating a ROOM adjacent to an existing ROOM keeps every ROOM cell
reachable from the start. -/
lemma reachable_update_room (m : Maze) (start c p : ℤ × ℤ)
    (hall : ∀ q, m q = CellType.ROOM.value → room_reachable m start q)
    (hc : m c = CellType.ROOM.value) (hadj : adjacent c p) :
    ∀ q, Function.update m p CellType.ROOM.value q = CellType.ROOM.value →
      room_reachable (Function.update m p CellType.ROOM.value) start q := by
  have hmono : ∀ r, m r = CellType.ROOM.value →
      Function.update m p CellType.ROOM.value r = CellType.ROOM.value := by
    intro r hr
    rw [room_iff_update_room]
    exact Or.inr hr
  intro q hq
  rcases (room_iff_update_room m p q).mp hq with rfl | hq'
  · refine Relation.ReflTransGen.tail
      (room_reachable_mono m _ hmono start c (hall c hc)) ?_
    exact ⟨hadj, Function.update_same _ _ _⟩
  · exact room_reachable_mono m _ hmono start q (hall q hq')

/-- Processing one candidate neighbor preserves the generation invariant,
and touches no cell other than the candidate. -/
lemma process_neighbor_inv (c : MazeConfig) (rand : ℕ → ℚ)
    (start xy p : ℤ × ℤ) (i N : ℕ) (st : GenState)
    (hinv : gen_inv start st)
    (hxy : st.maze xy = CellType.ROOM.value)
    (hp : st.maze p = CellType.UNVISITED.value)
    (hadj : adjacent xy p) :
    gen_inv start (process_neighbor c rand p i N st) ∧
    (∀ q, q ≠ p →
      (process_neighbor c rand p i N st).maze q = st.maze q) := by
  obtain ⟨hstart, hreach, hqueue⟩ := hinv
  have hstart_ne : start ≠ p := by
    intro h; rw [h, hp] at hstart; exact absurd hstart (by decide)
  unfold process_neighbor
  by_cases h : should_create_room c rand st.k st.maze p.1 p.2
    (calculate_room_probability c st.maze p.1 p.2 i N) = true
  · rw [if_pos h]
    refine ⟨⟨?_, ?_, ?_⟩, ?_⟩
    · show Function.update st.maze p CellType.ROOM.value start
        = CellType.ROOM.value
      rw [Function.update_noteq hstart_ne]
      exact hstart
    · exact reachable_update_room st.maze start xy p hreach hxy hadj
    · intro q hq
      show Function.update st.maze p CellType.ROOM.value q
        = CellType.ROOM.value
      rw [room_iff_update_room]
      rcases List.mem_append.mp hq with hq' | hq'
      · exact Or.inr (hqueue q hq')
      · rw [List.mem_singleton.mp hq']
        exact Or.inl rfl
    · intro q hq
      exact Function.update_noteq hq _ _
  · rw [if_neg h]
    refine ⟨⟨?_, ?_, ?_⟩, ?_⟩
    · show Function.update st.maze p CellType.WALL.value start
        = CellType.ROOM.value
      rw [Function.update_noteq hstart_ne]
      exact hstart
    · intro q hq
      have hq' := (room_iff_update_wall st.maze p hp q).mp hq
      exact room_reachable_congr st.maze _
        (room_iff_update_wall st.maze p hp) start q (hreach q hq')
    · intro q hq
      show Function.update st.maze p CellType.WALL.value q
        = CellType.ROOM.value
      have hqm := hqueue q hq
      have hqp : q ≠ p := by
        intro hh; rw [hh, hp] at hqm; exact absurd hqm (by decide)
      rw [Function.update_noteq hqp]
      exact hqm
    · intro q hq
      exact Function.update_noteq hq _ _

/-- Processing the whole enumerated neighbor list preserves the generation
invariant, provided the listed cells are pairwise distinct UNVISITED
neighbors of an already-ROOM parent cell. -/
lemma process_neighbor_list_inv (c : MazeConfig) (rand : ℕ → ℚ)
    (start xy : ℤ × ℤ) (N : ℕ) :
    ∀ (rest : List (ℤ × ℤ)) (i : ℕ) (st : GenState),
    gen_inv start st →
    st.maze xy = CellType.ROOM.value →
    (∀ q ∈ rest, st.maze q = CellType.UNVISITED.value ∧ adjacent xy q) →
    rest.Nodup →
    gen_inv start (process_neighbor_list c rand N rest i st) := by
  intro rest
  induction rest with
  | nil =>
    intro i st hinv _ _ _
    exact hinv
  | cons p rest ih =>
    intro i st hinv hxy hrest hnodup
    obtain ⟨hpU, hpadj⟩ := hrest p (List.mem_cons_self p rest)
    obtain ⟨hinv', huntouched⟩ :=
      process_neighbor_inv c rand start xy p i N st hinv hxy hpU hpadj
    have hxyp : xy ≠ p := by
      intro h; rw [h, hpU] at hxy; exact absurd hxy (by decide)
    have hnd := List.nodup_cons.mp hnodup
    refine ih (i + 1) (process_neighbor c rand p i N st) hinv' ?_ ?_ hnd.2
    · rw [huntouched xy hxyp]
      exact hxy
    · intro q hq
      have hqp : q ≠ p := by
        intro h; rw [h] at hq; exact hnd.1 hq
      rw [huntouched q hqp]
      exact hrest q (List.mem_cons_of_mem p hq)

/-- The direction deltas are pairwise distinct. -/
lemma delta_inj (d d' : Direction) (h : d.delta = d'.delta) : d = d' := by
  cases d <;> cases d' <;> first | rfl | (exact absurd h (by decide))

/-- Every collected unvisited neighbor is an UNVISITED cell one direction
step from the parent. -/
lemma mem_get_unvisited_neighbors (c : MazeConfig) (m : Maze)
    (ordered : List Direction) (x y : ℤ) (q : ℤ × ℤ)
    (hq : q ∈ get_unvisited_neighbors c m ordered x y) :
    m q = CellType.UNVISITED.value ∧ adjacent (x, y) q := by
  unfold get_unvisited_neighbors at hq
  rw [List.mem_filterMap] at hq
  obtain ⟨d, _, hfd⟩ := hq
  by_cases hcond : in_bounds c (x + d.delta.1) (y + d.delta.2) ∧
      m (x + d.delta.1, y + d.delta.2) = CellType.UNVISITED.value
  · rw [if_pos hcond] at hfd
    obtain rfl := Option.some.inj hfd
    exact ⟨hcond.2, d, rfl⟩
  · rw [if_neg hcond] at hfd
    cases hfd

/-- Distinct directions collect distinct neighbor cells. -/
lemma nodup_get_unvisited_neighbors (c : MazeConfig) (m : Maze)
    (ordered : List Direction) (x y : ℤ) (h : ordered.Nodup) :
    (get_unvisited_neighbors c m ordered x y).Nodup := by
  unfold get_unvisited_neighbors
  refine List.Nodup.filterMap ?_ h
  intro d d' q hq hq'
  have hval : ∀ (e : Direction),
      q ∈ (if in_bounds c (x + e.delta.1) (y + e.delta.2) ∧
          m (x + e.delta.1, y + e.delta.2) = CellType.UNVISITED.value
        then some (x + e.delta.1, y + e.delta.2) else none) →
      q = (x + e.delta.1, y + e.delta.2) := by
    intro e he
    by_cases hcond : in_bounds c (x + e.delta.1) (y + e.delta.2) ∧
        m (x + e.delta.1, y + e.delta.2) = CellType.UNVISITED.value
    · rw [if_pos hcond] at he
      exact (Option.some.inj (Option.mem_def.mp he)).symm
    · rw [if_neg hcond] at he
      cases he
  have h1 := hval d hq
  have h2 := hval d' hq'
  rw [h1] at h2
  obtain ⟨ha, hb⟩ := Prod.mk.injEq .. ▸ h2
  exact delta_inj d d' (Prod.ext (by omega) (by omega))

/-- Dequeue-and-process preserves the generation invariant. -/
lemma process_cell_inv (c : MazeConfig) (rand : ℕ → ℚ)
    (dirs : ℕ → List Direction) (start xy : ℤ × ℤ) (st : GenState)
    (hinv : gen_inv start st)
    (hxy : st.maze xy = CellType.ROOM.value)
    (hnodup : (dirs st.s).Nodup) :
    gen_inv start (process_cell c rand dirs xy st) := by
  unfold process_cell
  refine process_neighbor_list_inv c rand start xy _ _ 0
    { st with s := st.s + 1 } hinv hxy ?_ ?_
  · intro q hq
    have := mem_get_unvisited_neighbors c st.maze (dirs st.s) xy.1 xy.2 q hq
    exact ⟨this.1, this.2⟩
  · exact nodup_get_unvisited_neighbors c st.maze (dirs st.s) xy.1 xy.2 hnodup

/-- The whole generation loop preserves the invariant, for any fuel. -/
lemma generate_loop_inv (c : MazeConfig) (rand : ℕ → ℚ)
    (dirs : ℕ → List Direction) (start : ℤ × ℤ)
    (hdirs : ∀ n, (dirs n).Nodup) :
    ∀ (fuel : ℕ) (st : GenState), gen_inv start st →
      gen_inv start (generate_loop c rand dirs fuel st) := by
  intro fuel
  induction fuel with
  | zero =>
    intro st hinv
    exact hinv
  | succ fuel ih =>
    intro st hinv
    obtain ⟨mz, qu, kk, ss⟩ := st
    rcases qu with _ | ⟨p, rest⟩
    · exact hinv
    · have hproom : mz p = CellType.ROOM.value :=
        hinv.2.2 p (List.mem_cons_self p rest)
      have hinv' : gen_inv start (⟨mz, rest, kk, ss⟩ : GenState) := by
        refine ⟨hinv.1, hinv.2.1, ?_⟩
        intro q hqmem
        exact hinv.2.2 q (List.mem_cons_of_mem p hqmem)
      exact ih _ (process_cell_inv c rand dirs start p
        ⟨mz, rest, kk, ss⟩ hinv' hproom (hdirs _))

/-- Finalization (UNVISITED to WALL) leaves the ROOM set unchanged. -/
lemma finalize_room_iff (c : MazeConfig) (m : Maze) (q : ℤ × ℤ) :
    finalize_maze c m q = CellType.ROOM.value ↔
      m q = CellType.ROOM.value := by
  unfold finalize_maze
  by_cases h : in_bounds c q.1 q.2 ∧ m q = CellType.UNVISITED.value
  · rw [if_pos h]
    constructor
    · intro hh; exact absurd hh (by decide)
    · intro hh; rw [h.2] at hh; exact absurd hh (by decide)
  · rw [if_neg h]

/-- Claim C2: for every valid configuration, every in-bounds start cell,
every random stream, every duplicate-free direction order delivered by the
shuffle oracle (the weighted shuffle always returns a permutation of the
four directions) and any amount of loop fuel, the generated grid's ROOM
cells form one 4-connected region: the start cell is a ROOM and every ROOM
cell is reachable from it through 4-adjacent ROOM cells. -/
theorem generate_rooms_connected (c : MazeConfig) (rand : ℕ → ℚ)
    (dirs : ℕ → List Direction) (start : ℤ × ℤ) (fuel : ℕ)
    (hcfg : validate_config c = true)
    (hstart : in_bounds c start.1 start.2 = true)
    (hdirs : ∀ n, (dirs n).Nodup) :
    generate c rand dirs start fuel start = CellType.ROOM.value ∧
    ∀ p, generate c rand dirs start fuel p = CellType.ROOM.value →
      room_reachable (generate c rand dirs start fuel) start p := by
  have hinv0 : gen_inv start
      { maze := Function.update (fun _ => CellType.UNVISITED.value) start
          CellType.ROOM.value,
        queue := [start], k := 0, s := 0 } := by
    refine ⟨?_, ?_, ?_⟩
    · show Function.update (fun _ => CellType.UNVISITED.value) start
        CellType.ROOM.value start = CellType.ROOM.value
      exact Function.update_same _ _ _
    · intro p hp
      by_cases hps : p = start
      · subst hps
        exact Relation.ReflTransGen.refl
      · have hp' : Function.update (fun _ => CellType.UNVISITED.value) start
            CellType.ROOM.value p = CellType.ROOM.value := hp
        rw [Function.update_noteq hps] at hp'
        exact absurd hp' (by decide)
    · intro p hp
      rw [List.mem_singleton.mp hp]
      show Function.update (fun _ => CellType.UNVISITED.value) start
        CellType.ROOM.value start = CellType.ROOM.value
      exact Function.update_same _ _ _
  have hloop := generate_loop_inv c rand dirs start hdirs fuel _ hinv0
  constructor
  · exact (finalize_room_iff c _ start).mpr hloop.1
  · intro p hp
    have hp' := (finalize_room_iff c _ p).mp hp
    exact room_reachable_congr _ _ (finalize_room_iff c _) start p
      (hloop.2.1 p hp')

/-- Witness for C2 on the default configuration, the constant-zero random
stream, the identity direction order, start (0, 0) and fuel 2. -/
theorem generate_rooms_connected_witness :
    generate {} (fun _ => 0) (fun _ => Direction.all) (0, 0) 2 (0, 0)
      = CellType.ROOM.value :=
  (generate_rooms_connected {} (fun _ => 0) (fun _ => Direction.all) (0, 0) 2
    (by norm_num [validate_config]) (by decide)
    (by intro n; show Direction.all.Nodup; decide)).1

end MazePG
